import Mathlib

/-!
Verification of the Flow-matic repository (a FLOW-MATIC interpreter in
Python) against its natural-language specification.

The repository ships four Python files under version control here:
`demo.py`, `play_21.py`, `run_flowmatic.py` and `tests/run_tests.py`.
The interpreter core (`flowmatic_parser.py`, class `FlowMaticInterpreter`)
is imported by all four but its source file is not available, so the
engine-level definitions below are modelled from the specification text
(sections 3, 4 and 7 of spec.md); each such definition says so in its
doc comment.  The definitions for the test harness (`compare_outputs`,
`normalize_record`) and the card game (`calculate_total`) are translated
directly from the Python sources `tests/run_tests.py` and `play_21.py`.
-/

/-- Association-list lookup keyed by decidable equality.  Models both a
Python `dict.get` and the interpreter's alias tables. -/
def aget {α β : Type} [DecidableEq α] : List (α × β) → α → Option β
  | [], _ => none
  | (k', v) :: rest, k => if k' = k then some v else aget rest k

/-- Association-list update: replaces the value in place when the key is
present (keeping its position, as a Python `dict` keeps insertion order)
and appends otherwise. -/
def aset {α β : Type} [DecidableEq α] : List (α × β) → α → β → List (α × β)
  | [], k, v => [(k, v)]
  | (k', v') :: rest, k, v =>
      if k' = k then (k, v) :: rest else (k', v') :: aset rest k v

namespace FlowMatic

/-- Modelled from the spec: scalar values of the data model (§3): exact
decimal numbers `m / 10 ^ s`, integers, text, and null/absent.  The
missing source is `flowmatic_parser.py`. -/
inductive Scalar where
  | dec (m : Int) (s : Nat)
  | int (n : Int)
  | text (t : String)
  | null
deriving DecidableEq

/-- Modelled from the spec: a record is a mapping from field names to
scalar values (§3); represented as an insertion-ordered association
list, as Python dicts are. -/
abbrev Record := List (String × Scalar)

/-- Modelled from the spec: file modes INPUT / OUTPUT / HSP (§3). -/
inductive Mode where
  | input
  | output
  | hsp
deriving DecidableEq

/-- Modelled from the spec: a named record stream (§3) with its mode,
records, cursor (INPUT only), current record (most recently read) and
per-alias end-of-data flag. -/
structure FMFile where
  mode : Mode
  records : List Record
  cursor : Nat
  current : Option Record
  eof : Bool
deriving DecidableEq

/-- Modelled from the spec: comparison flag values EQUAL/LESS/GREATER
(§4.4). -/
inductive Cmp where
  | eq
  | lt
  | gt
deriving DecidableEq

/-- Modelled from the spec: operand of a statement, either a literal or
a field reference `FIELD (alias)` (§4.2). -/
inductive Operand where
  | lit (v : Scalar)
  | field (fname : String) (al : String)
deriving DecidableEq

/-- Modelled from the spec: IF-conditions (§4.2): comparison-flag tests
and `END OF DATA` for an alias. -/
inductive Cond where
  | isEqual
  | isLess
  | isGreater
  | endOfData (a : String)
deriving DecidableEq

/-- Modelled from the spec: the four arithmetic statement shapes
(§4.5). -/
inductive AOp where
  | add
  | sub
  | mul
  | div
deriving DecidableEq

/-- Modelled from the spec: statements as tagged variants (§3, §4.2).
`jump` covers both `JUMP TO OPERATION` and `GO TO OPERATION`;
`declare` covers the INPUT/OUTPUT/HSP declarations. -/
inductive Stmt where
  | readItem (a : String)
  | writeItem (a : String)
  | printItem (a : String)
  | transfer (src dst : String)
  | move (src : Operand) (dstField dstAlias : String)
  | compare (x y : Operand)
  | test (x : Operand) (lit : String)
  | ifCond (c : Cond) (act : Stmt)
  | otherwiseDo (act : Stmt)
  | jump (target : Nat)
  | setOperation (opNum target : Nat)
  | arith (op : AOp) (x y : Operand) (giving : Option (String × String))
  | declare (a : String) (md : Mode)
  | closeOut (aliases : List String)
  | stop
deriving DecidableEq

/-- Modelled from the spec: an operation is its ordered sequence of
statements (§3); the number is the key in the program table. -/
abbrev Operation := List Stmt

/-- Modelled from the spec: runtime error taxonomy (§7). -/
inductive RunErr where
  | unknownOperation
  | unknownAlias
  | unknownField
  | zeroDivide
  | typeCoerce
deriving DecidableEq

/-- Modelled from the spec: result of executing one statement — continue
with the next statement, transfer control to an operation, or STOP
(§4.4). -/
inductive Control where
  | next
  | jumped (target : Nat)
  | stopped
deriving DecidableEq

/-- Modelled from the spec: the full interpreter state (§3, §4.4): the
program table, the jump-target override map edited by SET OPERATION, the
file layer, the per-alias working records, the printer log, the
comparison flag, the program counter and the halted flag. -/
structure Machine where
  table : List (Nat × Operation)
  overrides : List (Nat × Nat)
  files : List (String × FMFile)
  working : List (String × Record)
  printer : List String
  flag : Cmp
  pc : Nat
  halted : Bool
deriving DecidableEq

/-- Round `num / den` (for `0 < den`) to the nearest integer, ties to
even; `/` and `%` on `Int` are Euclidean, hence floor division for a
positive divisor. -/
def roundHalfEvenPos (num den : Int) : Int :=
  let q := num / den
  let r := num % den
  if 2 * r < den then q
  else if den < 2 * r then q + 1
  else if q % 2 = 0 then q else q + 1

/-- Round `num / den` (for `den ≠ 0`) to the nearest integer, ties to
even. -/
def roundHalfEvenInt (num den : Int) : Int :=
  if den < 0 then roundHalfEvenPos (-num) (-den) else roundHalfEvenPos num den

/-- The rational value of the decimal `m / 10 ^ s`. -/
def ratOfDec (m : Int) (s : Nat) : ℚ := (m : ℚ) / (10 : ℚ) ^ s

/-- Modelled from the spec: exact decimal addition at the common
(larger) scale (§4.5). -/
def addDec (a b : Int × Nat) : Int × Nat :=
  let t := max a.2 b.2
  (a.1 * 10 ^ (t - a.2) + b.1 * 10 ^ (t - b.2), t)

/-- Modelled from the spec: exact decimal multiplication; scales add, so
no rounding ever happens (§4.5, scenario 5). -/
def mulDec (a b : Int × Nat) : Int × Nat := (a.1 * b.1, a.2 + b.2)

/-- Modelled from the spec: decimal division (§4.5): fails with
ARITH-ZERO-DIVIDE on a zero divisor, otherwise rounds the exact quotient
half-to-even to the larger of the operand scales, with a minimum scale
of 2. -/
def divDec (a b : Int × Nat) : Except RunErr (Int × Nat) :=
  if b.1 = 0 then .error RunErr.zeroDivide
  else
    let t := max (max a.2 b.2) 2
    .ok (roundHalfEvenInt (a.1 * 10 ^ (b.2 + t)) (b.1 * 10 ^ a.2), t)

/-- Modelled from the spec: dispatch of the four arithmetic shapes
(§4.5). -/
def applyArith : AOp → Int × Nat → Int × Nat → Except RunErr (Int × Nat)
  | .add, a, b => .ok (addDec a b)
  | .sub, a, b => .ok (addDec a (-b.1, b.2))
  | .mul, a, b => .ok (mulDec a b)
  | .div, a, b => divDec a b

/-- Modelled from the spec: implicit integer-to-decimal promotion (§3);
text and null are not numeric. -/
def toDec : Scalar → Option (Int × Nat)
  | .dec m s => some (m, s)
  | .int n => some (n, 0)
  | _ => none

/-- Three-way comparison of integers into the comparison flag. -/
def cmpInt (a b : Int) : Cmp :=
  if a < b then .lt else if b < a then .gt else .eq

/-- Modelled from the spec: COMPARE/TEST coercion (§4.4): numeric
operands compare numerically with decimal promotion, text compares
lexicographically, otherwise TYPE-COERCE. -/
def cmpScalars (x y : Scalar) : Except RunErr Cmp :=
  match toDec x, toDec y with
  | some (m1, s1), some (m2, s2) => .ok (cmpInt (m1 * 10 ^ s2) (m2 * 10 ^ s1))
  | _, _ =>
    match x, y with
    | .text t1, .text t2 =>
        .ok (if t1 < t2 then .lt else if t2 < t1 then .gt else .eq)
    | _, _ => .error RunErr.typeCoerce

/-- Uppercase a string character by character. -/
def upStr (t : String) : String := String.mk (t.data.map Char.toUpper)

/-- The two low decimal digits of a natural number, as a two-character
string. -/
def fmtNat2 (n : Nat) : String :=
  String.mk [Nat.digitChar (n / 10 % 10), Nat.digitChar (n % 10)]

/-- Modelled from the spec: printer formatting of a decimal with exactly
two fractional digits (§4.4, §6); the value is first rescaled
half-to-even to scale 2. -/
def fmtDec (m : Int) (s : Nat) : String :=
  let m2 := roundHalfEvenInt (m * 100) ((10 : Int) ^ s)
  let n := m2.natAbs
  (if m2 < 0 then "-" else "") ++ toString (n / 100) ++ "." ++ fmtNat2 (n % 100)

/-- Modelled from the spec: printer formatting of one scalar (§4.4):
decimals to two places, text uppercased. -/
def fmtScalar : Scalar → String
  | .dec m s => fmtDec m s
  | .int n => toString n
  | .text t => upStr t
  | .null => ""

/-- Modelled from the spec: printer formatting of a working record
(§4.4, §6): `KEY=VALUE` pairs in insertion order, separated by
commas. -/
def formatRecord (r : Record) : String :=
  String.intercalate ", " (r.map (fun p => p.1 ++ "=" ++ fmtScalar p.2))

/-- Modelled from the spec: resolve an operand (§4.4): a field reference
reads the current record of an INPUT alias, or the working record of any
other alias; a missing field is an error for arithmetic sources
(`strict`) and null for MOVE sources (§7). -/
def evalOperand (strict : Bool) (s : Machine) : Operand → Except RunErr Scalar
  | .lit v => .ok v
  | .field fname a =>
    match aget s.files a with
    | none => .error RunErr.unknownAlias
    | some f =>
      let r := if f.mode = Mode.input then f.current.getD []
               else (aget s.working a).getD []
      match aget r fname with
      | some v => .ok v
      | none => if strict then .error RunErr.unknownField else .ok Scalar.null

/-- Write a scalar into a field of the working record of an alias. -/
def writeField (s : Machine) (a fname : String) (v : Scalar) : Machine :=
  { s with working := aset s.working a (aset ((aget s.working a).getD []) fname v) }

/-- Modelled from the spec: evaluate an IF-condition (§4.4) against the
comparison flag or the per-alias end-of-data flag. -/
def evalCond (s : Machine) : Cond → Except RunErr Bool
  | .isEqual => .ok (match s.flag with | .eq => true | _ => false)
  | .isLess => .ok (match s.flag with | .lt => true | _ => false)
  | .isGreater => .ok (match s.flag with | .gt => true | _ => false)
  | .endOfData a =>
    match aget s.files a with
    | none => .error RunErr.unknownAlias
    | some f => .ok f.eof

/-- Modelled from the spec: execute one statement (§4.4).  The boolean
says whether this execution position consults the override map on an
unconditional `jump`: true for a top-level statement (the operation's
terminal unconditional transfer), false inside an IF/OTHERWISE action
(§4.3: the map is consulted only at the terminal unconditional
transfer).  SET OPERATION only edits the override map and continues. -/
def execBasic : Bool → Stmt → Machine → Except RunErr (Machine × Control)
  | ov, .jump t, s =>
      if ov then .ok (s, .jumped ((aget s.overrides s.pc).getD t))
      else .ok (s, .jumped t)
  | _, .setOperation n m, s =>
      .ok ({ s with overrides := aset s.overrides n m }, .next)
  | _, .stop, s => .ok (s, .stopped)
  | _, .closeOut _, s => .ok (s, .next)
  | _, .declare a md, s =>
    (match aget s.files a with
     | some f => .ok ({ s with files := aset s.files a { f with mode := md } }, .next)
     | none =>
         .ok ({ s with files := aset s.files a ⟨md, [], 0, none, false⟩ }, .next))
  | _, .readItem a, s =>
    (match aget s.files a with
     | none => .error RunErr.unknownAlias
     | some f =>
       if f.mode = Mode.input then
         if h : f.cursor < f.records.length then
           let f2 := { f with current := some (f.records.get ⟨f.cursor, h⟩),
                              cursor := f.cursor + 1, eof := false }
           .ok ({ s with files := aset s.files a f2 }, .next)
         else
           .ok ({ s with files := aset s.files a { f with eof := true } }, .next)
       else .error RunErr.unknownAlias)
  | _, .writeItem a, s =>
    (match aget s.files a with
     | none => .error RunErr.unknownAlias
     | some f =>
       if f.mode = Mode.output then
         let f2 := { f with records := f.records ++ [(aget s.working a).getD []] }
         .ok ({ s with files := aset s.files a f2,
                       working := aset s.working a [] }, .next)
       else .error RunErr.unknownAlias)
  | _, .printItem a, s =>
    (match aget s.files a with
     | none => .error RunErr.unknownAlias
     | some f =>
       if f.mode = Mode.hsp then
         let line := formatRecord ((aget s.working a).getD [])
         .ok ({ s with printer := s.printer ++ [line] }, .next)
       else .error RunErr.unknownAlias)
  | _, .transfer a b, s =>
    (match aget s.files a with
     | none => .error RunErr.unknownAlias
     | some f =>
       match f.current with
       | none => .error RunErr.unknownField
       | some r => .ok ({ s with working := aset s.working b r }, .next))
  | _, .move src fname al, s =>
    (match evalOperand false s src with
     | .error e => .error e
     | .ok v => .ok (writeField s al fname v, .next))
  | _, .compare x y, s =>
    (match evalOperand true s x with
     | .error e => .error e
     | .ok v1 =>
       match evalOperand true s y with
       | .error e => .error e
       | .ok v2 =>
         match cmpScalars v1 v2 with
         | .error e => .error e
         | .ok c => .ok ({ s with flag := c }, .next))
  | _, .test x t, s =>
    (match evalOperand true s x with
     | .error e => .error e
     | .ok v1 =>
       match cmpScalars v1 (Scalar.text t) with
       | .error e => .error e
       | .ok c => .ok ({ s with flag := c }, .next))
  | _, .arith op x y giving, s =>
    (match evalOperand true s x with
     | .error e => .error e
     | .ok vx =>
       match evalOperand true s y with
       | .error e => .error e
       | .ok vy =>
         match toDec vx, toDec vy with
         | some da, some db =>
           (match applyArith op da db with
            | .error e => .error e
            | .ok r =>
              match giving with
              | some (fname, al) =>
                  .ok (writeField s al fname (Scalar.dec r.1 r.2), .next)
              | none =>
                match y with
                | .field fname al =>
                    .ok (writeField s al fname (Scalar.dec r.1 r.2), .next)
                | _ => .error RunErr.typeCoerce)
         | _, _ => .error RunErr.typeCoerce)
  | _, .ifCond c act, s =>
    (match evalCond s c with
     | .error e => .error e
     | .ok true => execBasic false act s
     | .ok false => .ok (s, .next))
  | _, .otherwiseDo act, s => execBasic false act s

/-- Modelled from the spec: execute the statements of one operation left
to right (§4.4): a non-transferring statement continues, a transfer
terminates the iteration; IF tracks whether the immediately preceding IF
was false so that OTHERWISE pairs with it. -/
def execOp : List Stmt → Machine → Bool → Except RunErr (Machine × Control)
  | [], s, _ => .ok (s, .next)
  | Stmt.ifCond c act :: rest, s, _ =>
    (match evalCond s c with
     | .error e => .error e
     | .ok true =>
       (match execBasic false act s with
        | .error e => .error e
        | .ok (s', .next) => execOp rest s' false
        | .ok (s', ctl) => .ok (s', ctl))
     | .ok false => execOp rest s true)
  | Stmt.otherwiseDo act :: rest, s, prevFalse =>
    if prevFalse then
      (match execBasic false act s with
       | .error e => .error e
       | .ok (s', .next) => execOp rest s' false
       | .ok (s', ctl) => .ok (s', ctl))
    else execOp rest s false
  | stmt :: rest, s, _ =>
    (match execBasic true stmt s with
     | .error e => .error e
     | .ok (s', .next) => execOp rest s' false
     | .ok (s', ctl) => .ok (s', ctl))

/-- Modelled from the spec: `next_after(N)` (§4.3): the smallest
operation number strictly greater than `n`, or none. -/
def nextAfter (table : List (Nat × Operation)) (n : Nat) : Option Nat :=
  ((table.map Prod.fst).filter (fun k => n < k)).min?

/-- Modelled from the spec: one iteration of the fetch-decode-execute
loop (§4.4): fetch the operation at PC (UNKNOWN-OPERATION if absent),
execute it, then either stop, jump, fall through to `next_after(PC)`,
or halt cleanly when no later operation exists. -/
def stepOnce (s : Machine) : Except RunErr Machine :=
  if s.halted then .ok s
  else
    match aget s.table s.pc with
    | none => .error RunErr.unknownOperation
    | some stmts =>
      match execOp stmts s false with
      | .error e => .error e
      | .ok (s', .stopped) => .ok { s' with halted := true }
      | .ok (s', .jumped m) => .ok { s' with pc := m }
      | .ok (s', .next) =>
        match nextAfter s'.table s'.pc with
        | some m => .ok { s' with pc := m }
        | none => .ok { s' with halted := true }

/-- Modelled from the spec: the engine loop (§4.4, §4.6 `run()`),
fuelled to stay total; each step is `stepOnce`. -/
def run : Nat → Machine → Except RunErr Machine
  | 0, s => .ok s
  | fuel + 1, s =>
    if s.halted then .ok s
    else
      match stepOnce s with
      | .error e => .error e
      | .ok s' => run fuel s'

/-- Modelled from the spec: the smallest operation number present
(initial PC, §4.4), 0 for an empty table. -/
def firstOp : List (Nat × Operation) → Nat
  | [] => 0
  | [p] => p.1
  | p :: q :: rest => min p.1 (firstOp (q :: rest))

/-- Modelled from the spec: `load_program` + `load_file` (§4.6): the
initial machine for a program table and a set of INPUT files. -/
def initMachine (table : List (Nat × Operation))
    (inputs : List (String × List Record)) : Machine :=
  { table := table
    overrides := []
    files := inputs.map (fun p => (p.1, ⟨Mode.input, p.2, 0, none, false⟩))
    working := []
    printer := []
    flag := Cmp.eq
    pc := firstOp table
    halted := false }

/-- Modelled from the spec: `get_output(alias)` (§4.6). -/
def outputRecords (s : Machine) (a : String) : List Record :=
  match aget s.files a with
  | some f => f.records
  | none => []

/-- Modelled from the spec: `get_printer_output()` (§4.6). -/
def printerLog (s : Machine) : List String := s.printer

end FlowMatic

namespace TestHarness

/-- Python values occurring in test records (`tests/run_tests.py`):
ints, floats, `Decimal`s and strings.  Floats and decimals are modelled
as exact rationals. -/
inductive PyVal where
  | pint (n : Int)
  | pfloat (q : ℚ)
  | pdec (q : ℚ)
  | pstr (s : String)
deriving DecidableEq

/-- A record as the harness sees it: an insertion-ordered map from
string keys to values. -/
abbrev PyRec := List (String × PyVal)

/-- Key normalization from `normalize_record`:
`key.upper().replace('_', '-')`, character by character. -/
def normKey (s : String) : String :=
  String.mk (s.data.map (fun c => if c = '_' then '-' else c.toUpper))

/-- Python `round(q * 100)` half-to-even on an exact rational. -/
def roundHalfEvenQ (q : ℚ) : Int :=
  FlowMatic.roundHalfEvenInt q.num (q.den : Int)

/-- Python `round(value, 2)` (banker's rounding) on an exact
rational. -/
def round2 (q : ℚ) : ℚ := ((roundHalfEvenQ (q * 100) : ℚ)) / 100

/-- Value normalization from `normalize_record` (run_tests.py lines
43-48): `Decimal` becomes `float`, floats are rounded to 2 places,
everything else is unchanged. -/
def normVal : PyVal → PyVal
  | .pdec q => .pfloat q
  | .pfloat q => .pfloat (round2 q)
  | v => v

/-- `normalize_record` (run_tests.py lines 35-52): builds a fresh dict
with normalized keys and values. -/
def normalize_record (r : PyRec) : PyRec :=
  r.foldl (fun acc p => aset acc (normKey p.1) (normVal p.2)) []

/-- `isinstance(v, (int, float, Decimal))`. -/
def isNum : PyVal → Bool
  | .pint _ => true
  | .pfloat _ => true
  | .pdec _ => true
  | .pstr _ => false

/-- The numeric value of a Python value (0 for strings, which are never
treated numerically). -/
def toQ : PyVal → ℚ
  | .pint n => (n : ℚ)
  | .pfloat q => q
  | .pdec q => q
  | .pstr _ => 0

/-- Python `==` between harness values: numbers compare by numeric
value across int/float/Decimal, strings compare as strings, and a
number never equals a string. -/
def pyEq : PyVal → PyVal → Bool
  | .pstr a, .pstr b => a == b
  | a, b => if isNum a && isNum b then decide (toQ a = toQ b) else false

/-- One field comparison from `compare_outputs` (run_tests.py lines
74-79): a float expected value against a numeric actual value passes
when the absolute difference is at most 0.01; every other pairing
requires Python equality. -/
def fieldOk (expVal actVal : PyVal) : Bool :=
  match expVal with
  | .pfloat q =>
      if isNum actVal then decide (|toQ actVal - q| ≤ 1 / 100)
      else pyEq actVal expVal
  | _ => pyEq actVal expVal

/-- `compare_outputs` (run_tests.py lines 55-81): record counts must
match, and every field of each normalized expected record must be
present in the normalized actual record and pass `fieldOk`; fields
present only in the actual record are ignored. -/
def compare_outputs (actual expected : List PyRec) : Bool :=
  (actual.length == expected.length) &&
  (List.zip actual expected).all (fun p =>
    (normalize_record p.2).all (fun kv =>
      match aget (normalize_record p.1) kv.1 with
      | none => false
      | some av => fieldOk kv.2 av))

/-- The per-field acceptance condition as claim C9 words it: exactly
equal, or numeric expected value within absolute tolerance 0.01. -/
def origFieldClaim (ev av : PyVal) : Prop :=
  pyEq av ev = true ∨
    (isNum ev = true ∧ isNum av = true ∧ |toQ av - toQ ev| ≤ 1 / 100)

/-- The per-field acceptance condition the code implements: exactly
equal, or float expected value against a numeric actual within absolute
tolerance 0.01. -/
def amendFieldClaim (ev av : PyVal) : Prop :=
  pyEq av ev = true ∨
    (∃ q, ev = PyVal.pfloat q ∧ isNum av = true ∧ |toQ av - q| ≤ 1 / 100)

/-- The acceptance predicate of claim C9, parameterized by the
per-field condition: equal lengths, and at every record position every
normalized expected field is present in the normalized actual record
and satisfies the condition. -/
def claimAccepts (cond : PyVal → PyVal → Prop)
    (actual expected : List PyRec) : Prop :=
  actual.length = expected.length ∧
  ∀ p ∈ List.zip actual expected, ∀ kv ∈ normalize_record p.2,
    ∃ av, aget (normalize_record p.1) kv.1 = some av ∧ cond kv.2 av

/-- Counterexample fixture: one actual record with `K = 2.01`. -/
def ceActual : List PyRec := [[("K", PyVal.pfloat (201 / 100))]]

/-- Counterexample fixture: one expected record with `K = 2` (an
int). -/
def ceExpected : List PyRec := [[("K", PyVal.pint 2)]]

end TestHarness

namespace Play21

/-- A card as `play_21.py` deals it: a dict with `CARD-NAME` and
`CARD-VALUE`. -/
structure Card where
  cardName : String
  cardValue : Int
deriving DecidableEq

/-- `pat` is a prefix of the character list. -/
def startsWith : List Char → List Char → Bool
  | [], _ => true
  | _ :: _, [] => false
  | p :: ps, c :: cs => p == c && startsWith ps cs

/-- Contiguous-subsequence test on character lists; models Python's
`'ACE' in name` substring test. -/
def containsSeq (pat : List Char) : List Char → Bool
  | [] => startsWith pat []
  | c :: cs => startsWith pat (c :: cs) || containsSeq pat cs

/-- `'ACE' in name` from `calculate_total` (play_21.py line 97). -/
def isAceName (n : String) : Bool := containsSeq ['A', 'C', 'E'] n.data

/-- The running sum of `CARD-VALUE`s accumulated by the first loop of
`calculate_total` (play_21.py lines 87-98). -/
def handSum (cards : List Card) : Int :=
  cards.foldl (fun t c => t + c.cardValue) 0

/-- The ace count accumulated by the first loop of `calculate_total`. -/
def aceCount (cards : List Card) : Nat :=
  cards.countP (fun c => isAceName c.cardName)

/-- The `while total > 21 and aces > 0` loop of `calculate_total`
(play_21.py lines 100-102), recursing on the ace count. -/
def reduceAces : Int → Nat → Int
  | t, 0 => t
  | t, a + 1 => if 21 < t then reduceAces (t - 10) a else t

/-- `calculate_total` (play_21.py lines 85-103): sum the card values,
then reduce aces from 11 to 1 while the total exceeds 21. -/
def calculate_total (cards : List Card) : Int :=
  reduceAces (handSum cards) (aceCount cards)

/-- The hand total under an explicit assignment of 11 (`true`) or 1
(`false`) to each ace in order, all other cards at their `CARD-VALUE`;
this is the quantity claim C10 speaks about. -/
def handTotal : List Card → List Bool → Int
  | [], _ => 0
  | c :: cs, choice =>
    if isAceName c.cardName then
      match choice with
      | [] => handTotal cs []
      | b :: rest => (if b then 11 else 1) + handTotal cs rest
    else c.cardValue + handTotal cs choice

/-- Sum of the values of the non-ace cards. -/
def baseSum : List Card → Int
  | [] => 0
  | c :: cs => (if isAceName c.cardName then 0 else c.cardValue) + baseSum cs

/-- Counterexample fixture for C10: a card whose name contains `ACE`
but whose `CARD-VALUE` is 5 rather than 11. -/
def oddAce : List Card := [⟨"ACE OF SPADES", 5⟩]

end Play21

namespace FlowMatic

/-- Does this statement (or a conditional action inside it) write the
override entry of operation `k`? -/
def mentionsSet : Stmt → Nat → Bool
  | .setOperation n _, k => n == k
  | .ifCond _ act, k => mentionsSet act k
  | .otherwiseDo act, k => mentionsSet act k
  | _, _ => false

/-- The file after an exhausted READ-ITEM: only the end-of-data flag
changes. -/
def eofFile (f : FMFile) : FMFile := { f with eof := true }

/-- The file after a successful READ-ITEM of record `r`. -/
def advFile (f : FMFile) (r : Record) : FMFile :=
  { f with current := some r, cursor := f.cursor + 1, eof := false }

/-- The file after WRITE-ITEM appends record `r`. -/
def appendFile (f : FMFile) (r : Record) : FMFile :=
  { f with records := f.records ++ [r] }

/-- Witness fixture: a machine whose override map routes operation 3 to
operation 7. -/
def mC1 : Machine := ⟨[], [(3, 7)], [], [], [], Cmp.eq, 3, false⟩

/-- Witness fixture: an exhausted INPUT file whose current record is
the last one successfully read. -/
def inFileEmpty : FMFile := ⟨Mode.input, [], 0, some [("F", Scalar.int 1)], false⟩

/-- Witness fixture: an INPUT file with one unread record and the
end-of-data flag currently set. -/
def inFileOne : FMFile := ⟨Mode.input, [[("G", Scalar.int 2)]], 0, none, true⟩

/-- Witness fixture: an empty OUTPUT file. -/
def outFileW : FMFile := ⟨Mode.output, [], 0, none, false⟩

/-- Witness fixture machine for the READ-ITEM claims. -/
def mC2 : Machine :=
  ⟨[], [], [("A", inFileEmpty), ("B", inFileOne)], [], [], Cmp.eq, 0, false⟩

/-- Witness fixture machine for the WRITE-ITEM claim: one OUTPUT file
`C` and a working record for it. -/
def mC3 : Machine :=
  ⟨[], [], [("C", outFileW)], [("C", [("X", Scalar.int 7)])], [], Cmp.eq, 0, false⟩

/-- Witness fixture machine for fallthrough: operations 0 and 4, PC at
0. -/
def mC5 : Machine :=
  ⟨[(0, [Stmt.closeOut []]), (4, [Stmt.stop])], [], [], [], [], Cmp.eq, 0, false⟩

/-- Witness fixture machine past the last operation: a single operation
4 with no transfer, PC at 4. -/
def mC5b : Machine :=
  ⟨[(4, [Stmt.closeOut []])], [], [], [], [], Cmp.eq, 4, false⟩

/-- Counterexample fixture for the printer-format claim: an HSP file. -/
def printerFile : FMFile := ⟨Mode.hsp, [], 0, none, false⟩

/-- Counterexample fixture machine: HSP alias `D` whose working record
holds the lowercase text `abc`. -/
def mC8 : Machine :=
  ⟨[], [], [("D", printerFile)], [("D", [("K", Scalar.text "abc")])], [], Cmp.eq, 0, false⟩

end FlowMatic

theorem aget_aset_self {α β : Type} [DecidableEq α] (l : List (α × β)) (k : α) (v : β) :
    aget (aset l k v) k = some v := by
  induction l with
  | nil => simp [aget, aset]
  | cons p rest ih =>
    obtain ⟨k', v'⟩ := p
    by_cases h : k' = k
    · subst h; simp [aset, aget]
    · simp [aset, aget, h, ih]

theorem aget_aset_ne {α β : Type} [DecidableEq α] (l : List (α × β)) (k k' : α) (v : β)
    (h : k ≠ k') : aget (aset l k v) k' = aget l k' := by
  induction l with
  | nil => simp [aget, aset, h]
  | cons p rest ih =>
    obtain ⟨k1, v1⟩ := p
    by_cases h1 : k1 = k
    · subst h1; simp [aset, aget, h]
    · simp [aset, aget, h1, ih]

namespace FlowMatic

/-- Frame property of single-statement execution: no statement changes
the program table or the PC, and the override entry of `k` is unchanged
unless the statement contains `SET OPERATION k`. -/
theorem execBasic_frame (stmt : Stmt) : ∀ (ov : Bool) (s s' : Machine) (ctl : Control),
    execBasic ov stmt s = .ok (s', ctl) →
    s'.table = s.table ∧ s'.pc = s.pc ∧
      ∀ k, mentionsSet stmt k = false → aget s'.overrides k = aget s.overrides k := by
  induction stmt with
  | ifCond c act ih =>
    intro ov s s' ctl h
    simp only [execBasic] at h
    split at h
    · exact Except.noConfusion h
    · obtain ⟨h1, h2, h3⟩ := ih false s s' ctl h
      exact ⟨h1, h2, fun k hk => h3 k (by simpa [mentionsSet] using hk)⟩
    · simp only [Except.ok.injEq, Prod.mk.injEq] at h
      obtain ⟨h1, h2⟩ := h
      subst h1
      exact ⟨rfl, rfl, fun k _ => rfl⟩
  | otherwiseDo act ih =>
    intro ov s s' ctl h
    simp only [execBasic] at h
    obtain ⟨h1, h2, h3⟩ := ih false s s' ctl h
    exact ⟨h1, h2, fun k hk => h3 k (by simpa [mentionsSet] using hk)⟩
  | setOperation n m =>
    intro ov s s' ctl h
    simp only [execBasic, Except.ok.injEq, Prod.mk.injEq] at h
    obtain ⟨h1, h2⟩ := h
    subst h1
    refine ⟨rfl, rfl, fun k hk => ?_⟩
    have hnk : n ≠ k := by simpa [mentionsSet] using hk
    exact aget_aset_ne _ _ _ _ hnk
  | readItem a =>
    intro ov s s' ctl h
    simp only [execBasic] at h
    repeat' split at h
    all_goals first
      | exact Except.noConfusion h
      | (simp only [Except.ok.injEq, Prod.mk.injEq] at h
         obtain ⟨h1, h2⟩ := h
         subst h1
         exact ⟨rfl, rfl, fun k _ => rfl⟩)
  | writeItem a =>
    intro ov s s' ctl h
    simp only [execBasic] at h
    repeat' split at h
    all_goals first
      | exact Except.noConfusion h
      | (simp only [Except.ok.injEq, Prod.mk.injEq] at h
         obtain ⟨h1, h2⟩ := h
         subst h1
         exact ⟨rfl, rfl, fun k _ => rfl⟩)
  | printItem a =>
    intro ov s s' ctl h
    simp only [execBasic] at h
    repeat' split at h
    all_goals first
      | exact Except.noConfusion h
      | (simp only [Except.ok.injEq, Prod.mk.injEq] at h
         obtain ⟨h1, h2⟩ := h
         subst h1
         exact ⟨rfl, rfl, fun k _ => rfl⟩)
  | transfer a b =>
    intro ov s s' ctl h
    simp only [execBasic] at h
    repeat' split at h
    all_goals first
      | exact Except.noConfusion h
      | (simp only [Except.ok.injEq, Prod.mk.injEq] at h
         obtain ⟨h1, h2⟩ := h
         subst h1
         exact ⟨rfl, rfl, fun k _ => rfl⟩)
  | move src fn al =>
    intro ov s s' ctl h
    simp only [execBasic] at h
    repeat' split at h
    all_goals first
      | exact Except.noConfusion h
      | (simp only [Except.ok.injEq, Prod.mk.injEq] at h
         obtain ⟨h1, h2⟩ := h
         subst h1
         exact ⟨rfl, rfl, fun k _ => rfl⟩)
  | compare x y =>
    intro ov s s' ctl h
    simp only [execBasic] at h
    repeat' split at h
    all_goals first
      | exact Except.noConfusion h
      | (simp only [Except.ok.injEq, Prod.mk.injEq] at h
         obtain ⟨h1, h2⟩ := h
         subst h1
         exact ⟨rfl, rfl, fun k _ => rfl⟩)
  | test x t =>
    intro ov s s' ctl h
    simp only [execBasic] at h
    repeat' split at h
    all_goals first
      | exact Except.noConfusion h
      | (simp only [Except.ok.injEq, Prod.mk.injEq] at h
         obtain ⟨h1, h2⟩ := h
         subst h1
         exact ⟨rfl, rfl, fun k _ => rfl⟩)
  | jump t =>
    intro ov s s' ctl h
    simp only [execBasic] at h
    repeat' split at h
    all_goals first
      | exact Except.noConfusion h
      | (simp only [Except.ok.injEq, Prod.mk.injEq] at h
         obtain ⟨h1, h2⟩ := h
         subst h1
         exact ⟨rfl, rfl, fun k _ => rfl⟩)
  | arith op x y giving =>
    intro ov s s' ctl h
    simp only [execBasic] at h
    repeat' split at h
    all_goals first
      | exact Except.noConfusion h
      | (simp only [Except.ok.injEq, Prod.mk.injEq] at h
         obtain ⟨h1, h2⟩ := h
         subst h1
         exact ⟨rfl, rfl, fun k _ => rfl⟩)
  | declare a md =>
    intro ov s s' ctl h
    simp only [execBasic] at h
    repeat' split at h
    all_goals first
      | exact Except.noConfusion h
      | (simp only [Except.ok.injEq, Prod.mk.injEq] at h
         obtain ⟨h1, h2⟩ := h
         subst h1
         exact ⟨rfl, rfl, fun k _ => rfl⟩)
  | closeOut as =>
    intro ov s s' ctl h
    simp only [execBasic, Except.ok.injEq, Prod.mk.injEq] at h
    obtain ⟨h1, h2⟩ := h
    subst h1
    exact ⟨rfl, rfl, fun k _ => rfl⟩
  | stop =>
    intro ov s s' ctl h
    simp only [execBasic, Except.ok.injEq, Prod.mk.injEq] at h
    obtain ⟨h1, h2⟩ := h
    subst h1
    exact ⟨rfl, rfl, fun k _ => rfl⟩

end FlowMatic

namespace FlowMatic

/-- C1: SET OPERATION N TO GO TO M is non-transferring and updates only
the override map entry N (the program table, i.e. all operation bodies,
is never edited by any statement); the override map is consulted
exactly when a top-level (terminal) unconditional transfer executes,
where it replaces the encoded target for the current operation while an
entry exists, also in operation context; a transfer taken inside an
IF/OTHERWISE action ignores the map; and the override entry of `k`
persists across every statement that is not a `SET OPERATION k`. -/
theorem C1_set_operation_override (s : Machine) :
    (∀ n m, execBasic true (Stmt.setOperation n m) s =
        .ok ({ s with overrides := aset s.overrides n m }, Control.next)) ∧
    (∀ tgt M, aget s.overrides s.pc = some M →
        execBasic true (Stmt.jump tgt) s = .ok (s, Control.jumped M)) ∧
    (∀ tgt, aget s.overrides s.pc = none →
        execBasic true (Stmt.jump tgt) s = .ok (s, Control.jumped tgt)) ∧
    (∀ tgt, execBasic false (Stmt.jump tgt) s = .ok (s, Control.jumped tgt)) ∧
    (∀ tgt M rest pf, aget s.overrides s.pc = some M →
        execOp (Stmt.jump tgt :: rest) s pf = .ok (s, Control.jumped M)) ∧
    (∀ n m, aget (aset s.overrides n m) n = some m) ∧
    (∀ ov stmt t t' ctl, execBasic ov stmt t = .ok (t', ctl) → t'.table = t.table) ∧
    (∀ ov stmt t t' ctl k, mentionsSet stmt k = false →
        execBasic ov stmt t = .ok (t', ctl) →
        aget t'.overrides k = aget t.overrides k) := by
  refine ⟨fun n m => rfl, fun tgt M h => ?_, fun tgt h => ?_, fun tgt => rfl,
    fun tgt M rest pf h => ?_, fun n m => aget_aset_self _ _ _,
    fun ov stmt t t' ctl h => (execBasic_frame stmt ov t t' ctl h).1,
    fun ov stmt t t' ctl k hk h => (execBasic_frame stmt ov t t' ctl h).2.2 k hk⟩
  · simp [execBasic, h]
  · simp [execBasic, h]
  · simp [execOp, execBasic, h]

/-- Witness for C1 at a concrete machine: the override entry 3 ↦ 7 is
installed by SET OPERATION, the terminal jump of operation 3 branches
to 7 instead of its encoded target 9, and a conditional jump still
branches to 9. -/
theorem C1_set_operation_override_witness :
    execBasic true (Stmt.setOperation 3 7) ⟨[], [], [], [], [], Cmp.eq, 3, false⟩ =
      .ok (mC1, Control.next) ∧
    execBasic true (Stmt.jump 9) mC1 = .ok (mC1, Control.jumped 7) ∧
    execBasic false (Stmt.jump 9) mC1 = .ok (mC1, Control.jumped 9) ∧
    execOp [Stmt.jump 9] mC1 false = .ok (mC1, Control.jumped 7) := by
  obtain ⟨h1, h2, -, h4, h5, -⟩ := C1_set_operation_override mC1
  refine ⟨?_, h2 9 7 (by decide), h4 9, h5 9 7 [] false (by decide)⟩
  have h0 := (C1_set_operation_override ⟨[], [], [], [], [], Cmp.eq, 3, false⟩).1 3 7
  simpa using h0

end FlowMatic

namespace FlowMatic

/-- C2: READ-ITEM on an exhausted (or empty) INPUT file succeeds, sets
only the alias's end-of-data flag, and leaves the current record, the
cursor and the records unchanged; a successful READ-ITEM clears the
flag. -/
theorem C2_read_item_end_of_data (s : Machine) (a : String) (f : FMFile) (ov : Bool)
    (hf : aget s.files a = some f) (hmode : f.mode = Mode.input) :
    (f.records.length ≤ f.cursor →
      execBasic ov (Stmt.readItem a) s =
        .ok ({ s with files := aset s.files a (eofFile f) }, Control.next)) ∧
    (eofFile f).eof = true ∧
    (eofFile f).current = f.current ∧
    (eofFile f).cursor = f.cursor ∧
    (eofFile f).records = f.records ∧
    (∀ h : f.cursor < f.records.length,
      execBasic ov (Stmt.readItem a) s =
        .ok ({ s with files := aset s.files a (advFile f (f.records.get ⟨f.cursor, h⟩)) },
          Control.next)) ∧
    (∀ r, (advFile f r).eof = false) := by
  refine ⟨fun hle => ?_, rfl, rfl, rfl, rfl, fun h => ?_, fun r => rfl⟩
  · have hnot : ¬ f.cursor < f.records.length := by omega
    simp [execBasic, hf, hmode, hnot, eofFile]
  · simp [execBasic, hf, hmode, h, advFile]

/-- Witness for C2 at a concrete machine: file `A` is empty, so
READ-ITEM sets its end-of-data flag and keeps its current record; file
`B` has an unread record, so READ-ITEM clears its previously set
flag. -/
theorem C2_read_item_end_of_data_witness :
    execBasic true (Stmt.readItem "A") mC2 =
      .ok ({ mC2 with files := aset mC2.files "A" (eofFile inFileEmpty) }, Control.next) ∧
    (eofFile inFileEmpty).current = some [("F", Scalar.int 1)] ∧
    (eofFile inFileEmpty).eof = true ∧
    execBasic true (Stmt.readItem "B") mC2 =
      .ok ({ mC2 with files := aset mC2.files "B" (advFile inFileOne [("G", Scalar.int 2)]) },
        Control.next) ∧
    (advFile inFileOne [("G", Scalar.int 2)]).eof = false := by
  obtain ⟨h1, -, -, -, -, -, -⟩ :=
    C2_read_item_end_of_data mC2 "A" inFileEmpty true (by decide) (by decide)
  obtain ⟨-, -, -, -, -, h6, h7⟩ :=
    C2_read_item_end_of_data mC2 "B" inFileOne true (by decide) (by decide)
  refine ⟨by simpa using h1 (by decide), rfl, rfl, by simpa using h6 (by decide), h7 _⟩

/-- C3: WRITE-ITEM appends one copy of the alias's working record to
its OUTPUT file and clears the working record; the file grows by
exactly one record, the appended record is the working record at that
instant, and later TRANSFERs or MOVEs never change any file's stored
records. -/
theorem C3_write_item (s : Machine) (a : String) (f : FMFile) (ov : Bool)
    (hf : aget s.files a = some f) (hmode : f.mode = Mode.output) :
    execBasic ov (Stmt.writeItem a) s =
      .ok ({ s with
               files := aset s.files a (appendFile f ((aget s.working a).getD [])),
               working := aset s.working a [] }, Control.next) ∧
    (∀ r, (appendFile f r).records.length = f.records.length + 1) ∧
    (∀ r, (appendFile f r).records.getLast? = some r) ∧
    aget (aset s.working a ([] : Record)) a = some ([] : Record) ∧
    (∀ ov2 src dst (t t' : Machine) ctl,
      execBasic ov2 (Stmt.transfer src dst) t = .ok (t', ctl) → t'.files = t.files) ∧
    (∀ ov2 src fn al (t t' : Machine) ctl,
      execBasic ov2 (Stmt.move src fn al) t = .ok (t', ctl) → t'.files = t.files) := by
  refine ⟨?_, fun r => by simp [appendFile], fun r => by simp [appendFile],
    aget_aset_self _ _ _, fun ov2 src dst t t' ctl h => ?_, fun ov2 src fn al t t' ctl h => ?_⟩
  · simp only [execBasic, hf, hmode, appendFile]
    simp
  · simp only [execBasic] at h
    repeat' split at h
    all_goals first
      | exact Except.noConfusion h
      | (simp only [Except.ok.injEq, Prod.mk.injEq] at h
         obtain ⟨h1, h2⟩ := h
         subst h1
         rfl)
  · simp only [execBasic] at h
    repeat' split at h
    all_goals first
      | exact Except.noConfusion h
      | (simp only [Except.ok.injEq, Prod.mk.injEq] at h
         obtain ⟨h1, h2⟩ := h
         subst h1
         rfl)

/-- Witness for C3 at a concrete machine: WRITE-ITEM C appends the
working record `X = 7` to the empty OUTPUT file `C` and clears the
working record. -/
theorem C3_write_item_witness :
    execBasic true (Stmt.writeItem "C") mC3 =
      .ok ({ mC3 with
               files := aset mC3.files "C" (appendFile outFileW [("X", Scalar.int 7)]),
               working := aset mC3.working "C" [] }, Control.next) ∧
    (appendFile outFileW [("X", Scalar.int 7)]).records.length = 1 ∧
    (appendFile outFileW [("X", Scalar.int 7)]).records.getLast? =
      some [("X", Scalar.int 7)] := by
  obtain ⟨h1, h2, h3, -⟩ := C3_write_item mC3 "C" outFileW true (by decide) (by decide)
  exact ⟨by simpa using h1, h2 _, h3 _⟩

/-- C7: a READ-ITEM that successfully advances increments the cursor of
the named INPUT file by exactly one and leaves every other file (in
particular every other cursor) unchanged. -/
theorem C7_read_item_frame (s : Machine) (a : String) (f : FMFile) (ov : Bool)
    (hf : aget s.files a = some f) (hmode : f.mode = Mode.input)
    (h : f.cursor < f.records.length) :
    execBasic ov (Stmt.readItem a) s =
      .ok ({ s with files := aset s.files a (advFile f (f.records.get ⟨f.cursor, h⟩)) },
        Control.next) ∧
    (advFile f (f.records.get ⟨f.cursor, h⟩)).cursor = f.cursor + 1 ∧
    aget (aset s.files a (advFile f (f.records.get ⟨f.cursor, h⟩))) a =
      some (advFile f (f.records.get ⟨f.cursor, h⟩)) ∧
    (∀ b, b ≠ a →
      aget (aset s.files a (advFile f (f.records.get ⟨f.cursor, h⟩))) b = aget s.files b) := by
  refine ⟨?_, rfl, aget_aset_self _ _ _, fun b hb => aget_aset_ne _ _ _ _ (Ne.symm hb)⟩
  simp [execBasic, hf, hmode, h, advFile]

/-- Witness for C7 at a concrete machine: READ-ITEM B advances B's
cursor from 0 to 1 and leaves file A untouched. -/
theorem C7_read_item_frame_witness :
    execBasic true (Stmt.readItem "B") mC2 =
      .ok ({ mC2 with files := aset mC2.files "B" (advFile inFileOne [("G", Scalar.int 2)]) },
        Control.next) ∧
    (advFile inFileOne [("G", Scalar.int 2)]).cursor = 1 ∧
    aget (aset mC2.files "B" (advFile inFileOne [("G", Scalar.int 2)])) "A" =
      some inFileEmpty := by
  obtain ⟨h1, h2, -, h4⟩ :=
    C7_read_item_frame mC2 "B" inFileOne true (by decide) (by decide) (by decide)
  refine ⟨by simpa using h1, h2, ?_⟩
  rw [show aget (aset mC2.files "B" (advFile inFileOne [("G", Scalar.int 2)])) "A" =
        aget mC2.files "A" from h4 "A" (by decide)]
  decide

end FlowMatic

namespace FlowMatic

/-- C6: `run` is deterministic — the spec-modelled engine is a pure
function of the loaded program and the input files, so two runs from
identically loaded machines produce identical results, identical output
files for every alias, and identical printer logs. -/
theorem C6_run_deterministic (fuel : Nat) (table : List (Nat × Operation))
    (inputs : List (String × List Record)) (s₁ s₂ : Machine)
    (h₁ : s₁ = initMachine table inputs) (h₂ : s₂ = initMachine table inputs) :
    run fuel s₁ = run fuel s₂ ∧
    (∀ a, (run fuel s₁).map (fun t => outputRecords t a) =
          (run fuel s₂).map (fun t => outputRecords t a)) ∧
    (run fuel s₁).map printerLog = (run fuel s₂).map printerLog := by
  subst h₁
  subst h₂
  exact ⟨rfl, fun a => rfl, rfl⟩

/-- Witness for C6 at a concrete program: two machines loaded with the
same one-operation program and the same input file run to the same
result. -/
theorem C6_run_deterministic_witness :
    run 4 (initMachine [(0, [Stmt.stop])] [("A", [[("F", Scalar.int 1)]])]) =
      run 4 (initMachine [(0, [Stmt.stop])] [("A", [[("F", Scalar.int 1)]])]) ∧
    (run 4 (initMachine [(0, [Stmt.stop])] [("A", [[("F", Scalar.int 1)]])])).map printerLog =
      (run 4 (initMachine [(0, [Stmt.stop])] [("A", [[("F", Scalar.int 1)]])])).map printerLog := by
  obtain ⟨h1, -, h3⟩ := C6_run_deterministic 4 [(0, [Stmt.stop])] [("A", [[("F", Scalar.int 1)]])]
    _ _ rfl rfl
  exact ⟨h1, h3⟩

/-- `nextAfter` returns none exactly when no operation number exceeds
`n`. -/
theorem nextAfter_eq_none (t : List (Nat × Operation)) (n : Nat) :
    nextAfter t n = none ↔ ∀ p ∈ t, p.1 ≤ n := by
  rw [nextAfter, List.min?_eq_none_iff, List.filter_eq_nil_iff]
  constructor
  · intro h p hp
    have := h p.1 (List.mem_map_of_mem _ hp)
    simpa using this
  · intro h k hk
    obtain ⟨p, hp, rfl⟩ := List.mem_map.mp hk
    simpa using h p hp

/-- `nextAfter` computes exactly the smallest operation number strictly
greater than `n` present in the table. -/
theorem nextAfter_eq_some (t : List (Nat × Operation)) (n m : Nat) :
    nextAfter t n = some m ↔
      ((∃ p ∈ t, p.1 = m) ∧ n < m ∧ ∀ p ∈ t, n < p.1 → m ≤ p.1) := by
  rw [nextAfter, List.min?_eq_some_iff']
  constructor
  · rintro ⟨hmem, hleast⟩
    obtain ⟨hmem', hgt⟩ := List.mem_filter.mp hmem
    obtain ⟨p, hp, rfl⟩ := List.mem_map.mp hmem'
    refine ⟨⟨p, hp, rfl⟩, by simpa using hgt, ?_⟩
    intro q hq hgtq
    exact hleast q.1 (List.mem_filter.mpr ⟨List.mem_map_of_mem _ hq, by simpa using hgtq⟩)
  · rintro ⟨⟨p, hp, rfl⟩, hnm, hleast⟩
    refine ⟨List.mem_filter.mpr ⟨List.mem_map_of_mem _ hp, by simpa using hnm⟩, ?_⟩
    intro b hb
    obtain ⟨hb', hbgt⟩ := List.mem_filter.mp hb
    obtain ⟨q, hq, rfl⟩ := List.mem_map.mp hb'
    exact hleast q hq (by simpa using hbgt)

end FlowMatic

namespace FlowMatic

/-- C5: when an operation's execution transfers no control, the engine
falls through to the operation with the smallest number strictly
greater than the current PC (operation numbers may be sparse), and when
no such operation exists it halts cleanly — producing exactly the
state-with-halted-flag that a STOP control produces, not an error. -/
theorem C5_fallthrough (s : Machine) (stmts : Operation) (s₁ : Machine)
    (hh : s.halted = false) (hop : aget s.table s.pc = some stmts)
    (hex : execOp stmts s false = .ok (s₁, Control.next)) :
    (∀ m, nextAfter s₁.table s₁.pc = some m →
        stepOnce s = .ok { s₁ with pc := m } ∧
        (∃ p ∈ s₁.table, p.1 = m) ∧ s₁.pc < m ∧
        ∀ p ∈ s₁.table, s₁.pc < p.1 → m ≤ p.1) ∧
    (nextAfter s₁.table s₁.pc = none →
        stepOnce s = .ok { s₁ with halted := true } ∧
        ∀ p ∈ s₁.table, p.1 ≤ s₁.pc) ∧
    (∀ s₂ stmts2, execOp stmts2 s false = .ok (s₂, Control.stopped) →
        aget s.table s.pc = some stmts2 →
        stepOnce s = .ok { s₂ with halted := true }) := by
  refine ⟨fun m hm => ?_, fun hn => ?_, fun s₂ stmts2 hex2 hop2 => ?_⟩
  · obtain ⟨h1, h2, h3⟩ := (nextAfter_eq_some s₁.table s₁.pc m).mp hm
    refine ⟨?_, h1, h2, h3⟩
    simp [stepOnce, hh, hop, hex, hm]
  · refine ⟨?_, (nextAfter_eq_none s₁.table s₁.pc).mp hn⟩
    simp [stepOnce, hh, hop, hex, hn]
  · simp [stepOnce, hh, hop2, hex2]

/-- Witness for C5 at concrete machines: from operation 0 of `mC5` the
engine falls through to operation 4 (the smallest number above 0, with
nothing in between), and from operation 4 of `mC5b` (the last
operation) it halts cleanly. -/
theorem C5_fallthrough_witness :
    stepOnce mC5 = .ok { mC5 with pc := 4 } ∧
    stepOnce mC5b = .ok { mC5b with halted := true } := by
  obtain ⟨h1, -, -⟩ := C5_fallthrough mC5 [Stmt.closeOut []] mC5 rfl (by decide) rfl
  obtain ⟨-, h2, -⟩ := C5_fallthrough mC5b [Stmt.closeOut []] mC5b rfl (by decide) rfl
  exact ⟨(h1 4 (by decide)).1, (h2 (by decide)).1⟩

end FlowMatic

namespace FlowMatic

/-- For a positive divisor, `roundHalfEvenPos` lands within half a unit
of the exact quotient, and exactly half a unit away only on an even
integer. -/
theorem roundHalfEvenPos_spec (num den : Int) (hden : 0 < den) :
    |(roundHalfEvenPos num den : ℚ) - (num : ℚ) / (den : ℚ)| ≤ 1 / 2 ∧
    (|(roundHalfEvenPos num den : ℚ) - (num : ℚ) / (den : ℚ)| = 1 / 2 →
      Even (roundHalfEvenPos num den)) := by
  have hq : den * (num / den) + num % den = num := Int.ediv_add_emod num den
  have hr0 : 0 ≤ num % den := Int.emod_nonneg num (by omega)
  have hr1 : num % den < den := Int.emod_lt_of_pos num hden
  have hdQ : (0 : ℚ) < (den : ℚ) := by exact_mod_cast hden
  have hdne : (den : ℚ) ≠ 0 := ne_of_gt hdQ
  have hval : (num : ℚ) = (den : ℚ) * ((num / den : Int) : ℚ) + ((num % den : Int) : ℚ) := by
    exact_mod_cast hq.symm
  have hfrac : (num : ℚ) / (den : ℚ) =
      ((num / den : Int) : ℚ) + ((num % den : Int) : ℚ) / (den : ℚ) := by
    field_simp
    linarith [hval]
  simp only [roundHalfEvenPos]
  rcases lt_trichotomy (2 * (num % den)) den with hlt | heq | hgt
  · rw [if_pos hlt]
    have habs : |((num / den : Int) : ℚ) - (num : ℚ) / (den : ℚ)| =
        ((num % den : Int) : ℚ) / (den : ℚ) := by
      rw [hfrac, abs_sub_comm, add_sub_cancel_left]
      exact abs_of_nonneg (div_nonneg (by exact_mod_cast hr0) (le_of_lt hdQ))
    constructor
    · rw [habs, div_le_div_iff₀ hdQ (by norm_num : (0 : ℚ) < 2)]
      exact_mod_cast (by omega : (num % den) * 2 ≤ 1 * den)
    · rw [habs]
      intro htie
      exfalso
      rw [div_eq_div_iff hdne (by norm_num : (2 : ℚ) ≠ 0)] at htie
      have : (num % den) * 2 = 1 * den := by exact_mod_cast htie
      omega
  · rw [if_neg (by omega), if_neg (by omega)]
    have hhalf : ((num % den : Int) : ℚ) / (den : ℚ) = 1 / 2 := by
      rw [div_eq_div_iff hdne (by norm_num : (2 : ℚ) ≠ 0)]
      exact_mod_cast (by omega : (num % den) * 2 = 1 * den)
    by_cases hq2 : num / den % 2 = 0
    · rw [if_pos hq2]
      have habs : |((num / den : Int) : ℚ) - (num : ℚ) / (den : ℚ)| = 1 / 2 := by
        rw [hfrac, hhalf, abs_sub_comm, add_sub_cancel_left]
        norm_num
      exact ⟨le_of_eq habs, fun _ => Int.even_iff.mpr hq2⟩
    · rw [if_neg hq2]
      have habs : |((num / den + 1 : Int) : ℚ) - (num : ℚ) / (den : ℚ)| = 1 / 2 := by
        rw [hfrac, hhalf]
        push_cast
        have harg : ((num / den : Int) : ℚ) + 1 - (((num / den : Int) : ℚ) + 1 / 2) = 1 / 2 := by
          ring
        rw [harg]
        norm_num
      refine ⟨le_of_eq habs, fun _ => ?_⟩
      exact Int.even_add_one.mpr (by rw [Int.even_iff]; omega)
  · rw [if_neg (by omega), if_pos hgt]
    have hhalflt : 1 / 2 < ((num % den : Int) : ℚ) / (den : ℚ) := by
      rw [div_lt_div_iff₀ (by norm_num : (0 : ℚ) < 2) hdQ]
      exact_mod_cast (by omega : 1 * den < (num % den) * 2)
    have hlt1 : ((num % den : Int) : ℚ) / (den : ℚ) < 1 := by
      rw [div_lt_one hdQ]
      exact_mod_cast hr1
    have habs : |((num / den + 1 : Int) : ℚ) - (num : ℚ) / (den : ℚ)| =
        1 - ((num % den : Int) : ℚ) / (den : ℚ) := by
      rw [hfrac]
      push_cast
      have harg : ((num / den : Int) : ℚ) + 1 -
          (((num / den : Int) : ℚ) + ((num % den : Int) : ℚ) / (den : ℚ)) =
          1 - ((num % den : Int) : ℚ) / (den : ℚ) := by
        ring
      rw [harg]
      exact abs_of_nonneg (by linarith)
    constructor
    · rw [habs]; linarith
    · rw [habs]; intro htie; exfalso; linarith

/-- For any nonzero divisor, `roundHalfEvenInt` lands within half a
unit of the exact quotient, with ties only on even integers. -/
theorem roundHalfEvenInt_spec (num den : Int) (hden : den ≠ 0) :
    |(roundHalfEvenInt num den : ℚ) - (num : ℚ) / (den : ℚ)| ≤ 1 / 2 ∧
    (|(roundHalfEvenInt num den : ℚ) - (num : ℚ) / (den : ℚ)| = 1 / 2 →
      Even (roundHalfEvenInt num den)) := by
  rw [roundHalfEvenInt]
  by_cases h : den < 0
  · rw [if_pos h]
    have h2 := roundHalfEvenPos_spec (-num) (-den) (by omega)
    have harg : ((-num : Int) : ℚ) / ((-den : Int) : ℚ) = (num : ℚ) / (den : ℚ) := by
      push_cast
      rw [neg_div_neg_eq]
    rwa [harg] at h2
  · rw [if_neg h]
    exact roundHalfEvenPos_spec num den (by omega)

/-- C4: DIVIDE fails with ARITH-ZERO-DIVIDE on a zero divisor, both in
`divDec` itself and when the statement executes; for a nonzero divisor
the result is a decimal at scale `max(scale a, scale b, 2)` whose
mantissa is the exact quotient scaled to that scale and rounded
half-to-even (within half a unit, ties only on even mantissas); and
multiplication is exact: 0.1 × 0.2 is exactly 0.02 = 1/50. -/
theorem C4_divide_half_even (a b : Int × Nat) :
    (b.1 = 0 → divDec a b = .error RunErr.zeroDivide) ∧
    (∀ (s : Machine) ov fn al, b.1 = 0 →
      execBasic ov (Stmt.arith AOp.div (Operand.lit (Scalar.dec a.1 a.2))
        (Operand.lit (Scalar.dec b.1 b.2)) (some (fn, al))) s =
        .error RunErr.zeroDivide) ∧
    (b.1 ≠ 0 → ∃ k : Int,
      divDec a b = .ok (k, max (max a.2 b.2) 2) ∧
      |(k : ℚ) - ratOfDec a.1 a.2 / ratOfDec b.1 b.2 *
          (10 : ℚ) ^ (max (max a.2 b.2) 2)| ≤ 1 / 2 ∧
      (|(k : ℚ) - ratOfDec a.1 a.2 / ratOfDec b.1 b.2 *
          (10 : ℚ) ^ (max (max a.2 b.2) 2)| = 1 / 2 → Even k)) ∧
    mulDec (1, 1) (2, 1) = (2, 2) ∧ ratOfDec 2 2 = 1 / 50 := by
  refine ⟨fun hb => ?_, fun s ov fn al hb => ?_, fun hb => ?_, rfl, by norm_num [ratOfDec]⟩
  · simp [divDec, hb]
  · simp [execBasic, evalOperand, toDec, applyArith, divDec, hb]
  · refine ⟨roundHalfEvenInt (a.1 * 10 ^ (b.2 + max (max a.2 b.2) 2)) (b.1 * 10 ^ a.2),
      ?_, ?_⟩
    · simp [divDec, hb]
    · have hden : b.1 * (10 : Int) ^ a.2 ≠ 0 :=
        mul_ne_zero hb (pow_ne_zero _ (by norm_num))
      have hspec := roundHalfEvenInt_spec
        (a.1 * 10 ^ (b.2 + max (max a.2 b.2) 2)) (b.1 * 10 ^ a.2) hden
      have hb' : (b.1 : ℚ) ≠ 0 := Int.cast_ne_zero.mpr hb
      have h10 : (10 : ℚ) ≠ 0 := by norm_num
      have harg : ((a.1 * 10 ^ (b.2 + max (max a.2 b.2) 2) : Int) : ℚ) /
          ((b.1 * 10 ^ a.2 : Int) : ℚ) =
          ratOfDec a.1 a.2 / ratOfDec b.1 b.2 * (10 : ℚ) ^ (max (max a.2 b.2) 2) := by
        rw [ratOfDec, ratOfDec]
        push_cast
        field_simp
        ring
      rwa [harg] at hspec

end FlowMatic

namespace FlowMatic

/-- Witness for C4: 1.23 divided by zero fails with ARITH-ZERO-DIVIDE
(both as a value operation and as a statement), and 1 / 3 rounds to
0.33 at scale 2 within half a unit of the exact quotient. -/
theorem C4_divide_half_even_witness :
    divDec (123, 2) (0, 7) = .error RunErr.zeroDivide ∧
    execBasic true (Stmt.arith AOp.div (Operand.lit (Scalar.dec 123 2))
      (Operand.lit (Scalar.dec 0 7)) (some ("Q", "C"))) mC3 = .error RunErr.zeroDivide ∧
    ∃ k : Int, divDec (1, 0) (3, 0) = .ok (k, 2) ∧
      |(k : ℚ) - ratOfDec 1 0 / ratOfDec 3 0 * (10 : ℚ) ^ 2| ≤ 1 / 2 := by
  obtain ⟨h1, h2, -, -⟩ := C4_divide_half_even (123, 2) (0, 7)
  obtain ⟨-, -, h3, -⟩ := C4_divide_half_even (1, 0) (3, 0)
  obtain ⟨k, hk1, hk2, -⟩ := h3 (by norm_num)
  exact ⟨h1 rfl, h2 mC3 true "Q" "C" rfl, k, by simpa using hk1, by simpa using hk2⟩

end FlowMatic

namespace FlowMatic

/-- Counterexample to C8 as stated: printing a working record holding
the lowercase text `abc` appends the line `K=ABC`, not the verbatim
`K=abc` — text is uppercased by the printer normalization (§4.4), so
it is not preserved verbatim. -/
theorem C8_print_verbatim_counterexample :
    execBasic true (Stmt.printItem "D") mC8 =
      .ok ({ mC8 with printer := ["K=ABC"] }, Control.next) ∧
    formatRecord [("K", Scalar.text "abc")] = "K=ABC" ∧
    formatRecord [("K", Scalar.text "abc")] ≠ "K=abc" := by
  refine ⟨rfl, by decide, by decide⟩

/-- C8 (amended): PRINT-ITEM appends exactly one line to the printer
log, built from the working record's fields in insertion order as
`KEY=VALUE` pairs separated by commas; decimal values are formatted
with exactly two fractional digits, and text values are uppercased
(rather than preserved verbatim). -/
theorem C8_print_item_format (s : Machine) (a : String) (f : FMFile) (ov : Bool)
    (hf : aget s.files a = some f) (hmode : f.mode = Mode.hsp) :
    execBasic ov (Stmt.printItem a) s =
      .ok ({ s with printer :=
        s.printer ++ [formatRecord ((aget s.working a).getD [])] }, Control.next) ∧
    (∀ (l : List String) (x : String), (l ++ [x]).length = l.length + 1) ∧
    (∀ r : Record, formatRecord r =
      String.intercalate ", " (r.map (fun p => p.1 ++ "=" ++ fmtScalar p.2))) ∧
    (∀ m sc, ∃ ip : String, fmtScalar (Scalar.dec m sc) =
      ip ++ "." ++ fmtNat2 ((roundHalfEvenInt (m * 100) ((10 : Int) ^ sc)).natAbs % 100)) ∧
    (∀ n, (fmtNat2 n).length = 2) ∧
    (∀ t, fmtScalar (Scalar.text t) = upStr t) := by
  refine ⟨?_, fun l x => by simp, fun r => rfl, fun m sc => ?_, fun n => rfl, fun t => rfl⟩
  · simp [execBasic, hf, hmode]
  · exact ⟨(if roundHalfEvenInt (m * 100) ((10 : Int) ^ sc) < 0 then "-" else "") ++
      toString ((roundHalfEvenInt (m * 100) ((10 : Int) ^ sc)).natAbs / 100), rfl⟩

/-- Witness for the amended C8: printing the fixture machine's working
record (`K = abc` with an HSP file) appends one line, `K=ABC`. -/
theorem C8_print_item_format_witness :
    execBasic true (Stmt.printItem "D") mC8 =
      .ok ({ mC8 with printer :=
        mC8.printer ++ [formatRecord ((aget mC8.working "D").getD [])] }, Control.next) ∧
    (fmtNat2 5).length = 2 ∧
    fmtScalar (Scalar.text "abc") = upStr "abc" := by
  obtain ⟨h1, -, -, -, h5, h6⟩ :=
    C8_print_item_format mC8 "D" printerFile true (by decide) (by decide)
  exact ⟨h1, h5 5, h6 "abc"⟩

end FlowMatic

namespace TestHarness

/-- Python equality of a numeric value against a float forces the same
rational value. -/
theorem pyEq_num_toQ (av : PyVal) (q : ℚ) (hn : isNum av = true)
    (h : pyEq av (PyVal.pfloat q) = true) : toQ av = q := by
  cases av with
  | pint n => simpa [pyEq, isNum, toQ] using h
  | pfloat qf => simpa [pyEq, isNum, toQ] using h
  | pdec qd => simpa [pyEq, isNum, toQ] using h
  | pstr st => simp [isNum] at hn

/-- The per-field check of `compare_outputs` accepts exactly the
amended condition: Python equality, or a float expected value within
0.01 of a numeric actual value. -/
theorem fieldOk_iff (ev av : PyVal) :
    fieldOk ev av = true ↔ amendFieldClaim ev av := by
  cases ev with
  | pfloat q =>
    cases hn : isNum av with
    | true =>
      simp only [fieldOk, hn, if_true, decide_eq_true_eq, amendFieldClaim]
      constructor
      · intro h
        exact Or.inr ⟨q, rfl, by simp [hn], h⟩
      · rintro (h | ⟨q', hq', -, h⟩)
        · rw [pyEq_num_toQ av q hn h]
          simp
        · cases hq'
          exact h
    | false =>
      cases av with
      | pstr st =>
        simp [fieldOk, isNum, pyEq, amendFieldClaim]
      | pint n => simp [isNum] at hn
      | pfloat qf => simp [isNum] at hn
      | pdec qd => simp [isNum] at hn
  | pint n =>
    simp only [fieldOk, amendFieldClaim]
    constructor
    · intro h
      exact Or.inl h
    · rintro (h | ⟨q', hq', -, -⟩)
      · exact h
      · exact PyVal.noConfusion hq'
  | pdec qd =>
    simp only [fieldOk, amendFieldClaim]
    constructor
    · intro h
      exact Or.inl h
    · rintro (h | ⟨q', hq', -, -⟩)
      · exact h
      · exact PyVal.noConfusion hq'
  | pstr st =>
    simp only [fieldOk, amendFieldClaim]
    constructor
    · intro h
      exact Or.inl h
    · rintro (h | ⟨q', hq', -, -⟩)
      · exact h
      · exact PyVal.noConfusion hq'

/-- C9 (amended): `compare_outputs` succeeds exactly when the lists
have equal length and, at every record position, every field of the
normalized expected record is present in the normalized actual record
with a value that is Python-equal or — for float expected values
against numeric actual values — within absolute tolerance 0.01; extra
actual fields are ignored. -/
theorem C9_compare_outputs_iff (actual expected : List PyRec) :
    compare_outputs actual expected = true ↔
      claimAccepts amendFieldClaim actual expected := by
  unfold compare_outputs claimAccepts
  rw [Bool.and_eq_true, beq_iff_eq, List.all_eq_true]
  constructor
  · rintro ⟨hlen, hall⟩
    refine ⟨hlen, ?_⟩
    intro p hp kv hkv
    have h1 := hall p hp
    rw [List.all_eq_true] at h1
    have h2 := h1 kv hkv
    cases hag : aget (normalize_record p.1) kv.1 with
    | none => rw [hag] at h2; exact Bool.noConfusion h2
    | some av =>
      rw [hag] at h2
      exact ⟨av, rfl, (fieldOk_iff _ _).mp h2⟩
  · rintro ⟨hlen, hall⟩
    refine ⟨hlen, ?_⟩
    intro p hp
    rw [List.all_eq_true]
    intro kv hkv
    obtain ⟨av, hag, hc⟩ := hall p hp kv hkv
    rw [hag]
    exact (fieldOk_iff _ _).mpr hc

end TestHarness

namespace TestHarness

/-- Python `round(2.01, 2)` leaves 2.01 unchanged. -/
theorem round2_fixture : round2 (201 / 100 : ℚ) = 201 / 100 := by
  have h1 : (201 / 100 : ℚ) * 100 = 201 := by norm_num
  rw [round2, roundHalfEvenQ, h1]
  norm_num
  have h2 : FlowMatic.roundHalfEvenInt 201 1 = 201 := by decide
  rw [h2]
  norm_num

end TestHarness

namespace TestHarness

/-- Counterexample to C9 as stated: with expected field `K = 2` (an
int) and actual field `K = 2.01` (a float), both values are numeric and
differ by exactly 0.01, so the claim's acceptance condition holds, yet
`compare_outputs` fails — the tolerance branch only applies when the
expected value is a float. -/
theorem C9_compare_outputs_counterexample :
    compare_outputs ceActual ceExpected = false ∧
    claimAccepts origFieldClaim ceActual ceExpected := by
  have hk : normKey "K" = "K" := by decide
  have hNA : normalize_record [("K", PyVal.pfloat (201 / 100))] =
      [("K", PyVal.pfloat (201 / 100))] := by
    simp [normalize_record, normVal, round2_fixture, hk, aset]
  have hNE : normalize_record [("K", PyVal.pint 2)] = [("K", PyVal.pint 2)] := by decide
  have hne : (201 / 100 : ℚ) ≠ 2 := by norm_num
  have hfield : fieldOk (PyVal.pint 2) (PyVal.pfloat (201 / 100)) = false := by
    simp [fieldOk, pyEq, isNum, toQ, hne]
  constructor
  · simp [compare_outputs, ceActual, ceExpected, hNA, hNE, aget, hfield, hk, normVal,
      round2_fixture]
  · refine ⟨rfl, ?_⟩
    intro p hp
    rw [show List.zip ceActual ceExpected =
      [([("K", PyVal.pfloat (201 / 100))], [("K", PyVal.pint 2)])] from rfl] at hp
    rw [List.mem_singleton] at hp
    subst hp
    intro kv hkv
    rw [show normalize_record ([("K", PyVal.pfloat (201 / 100))],
        [("K", PyVal.pint 2)]).2 = [("K", PyVal.pint 2)] from hNE] at hkv
    rw [List.mem_singleton] at hkv
    subst hkv
    refine ⟨PyVal.pfloat (201 / 100), ?_, ?_⟩
    · show aget (normalize_record [("K", PyVal.pfloat (201 / 100))]) "K" =
        some (PyVal.pfloat (201 / 100))
      rw [hNA]
      simp [aget]
    · show origFieldClaim (PyVal.pint 2) (PyVal.pfloat (201 / 100))
      exact Or.inr ⟨rfl, rfl, by norm_num [toQ, abs_le]⟩

end TestHarness

namespace Play21

/-- Folding the card values from any accumulator. -/
theorem handSum_aux (cs : List Card) : ∀ x : Int,
    cs.foldl (fun t c => t + c.cardValue) x = x + handSum cs := by
  induction cs with
  | nil => intro x; simp [handSum]
  | cons c cs ih =>
    intro x
    simp only [handSum, List.foldl_cons]
    rw [ih, ih]
    ring

/-- `handSum` of a cons. -/
theorem handSum_cons (c : Card) (cs : List Card) :
    handSum (c :: cs) = c.cardValue + handSum cs := by
  rw [show handSum (c :: cs) =
    cs.foldl (fun t c => t + c.cardValue) (0 + c.cardValue) from rfl]
  rw [handSum_aux]
  rw [show handSum cs = cs.foldl (fun t c => t + c.cardValue) 0 from rfl]
  ring

/-- When every ace carries `CARD-VALUE` 11, the raw sum splits into the
non-ace base plus 11 per ace. -/
theorem handSum_eq (cards : List Card)
    (hace : ∀ c ∈ cards, isAceName c.cardName = true → c.cardValue = 11) :
    handSum cards = baseSum cards + 11 * (aceCount cards : Int) := by
  induction cards with
  | nil => simp [handSum, baseSum, aceCount]
  | cons c cs ih =>
    rw [handSum_cons]
    have hcs := ih (fun d hd hda => hace d (List.mem_cons_of_mem _ hd) hda)
    by_cases hc : isAceName c.cardName = true
    · have hv : c.cardValue = 11 := hace c (List.mem_cons_self _ _) hc
      rw [hcs, hv]
      simp [baseSum, aceCount, List.countP_cons, hc]
      ring
    · have hc' : isAceName c.cardName = false := by simpa using hc
      rw [hcs]
      simp [baseSum, aceCount, List.countP_cons, hc']
      ring

/-- The assignment total: base of the non-aces, plus one per ace, plus
ten per ace assigned eleven. -/
theorem handTotal_eq (cards : List Card) : ∀ choice : List Bool,
    choice.length = aceCount cards →
    handTotal cards choice = baseSum cards + (aceCount cards : Int) +
      10 * (choice.count true : Int) := by
  induction cards with
  | nil =>
    intro choice h
    simp only [aceCount, List.countP_nil] at h
    rw [List.length_eq_zero] at h
    subst h
    simp [handTotal, baseSum, aceCount]
  | cons c cs ih =>
    intro choice h
    by_cases hc : isAceName c.cardName = true
    · cases choice with
      | nil =>
        exfalso
        simp [aceCount, List.countP_cons, hc] at h
      | cons b rest =>
        have hlen : rest.length = aceCount cs := by
          simp only [aceCount, List.countP_cons, hc, if_true, List.length_cons] at h ⊢
          omega
        simp only [handTotal, hc, if_true]
        rw [ih rest hlen]
        simp [aceCount, baseSum, List.countP_cons, hc, List.count_cons]
        cases b <;> simp <;> ring
    · have hc' : isAceName c.cardName = false := by simpa using hc
      simp only [handTotal, hc']
      have hlen : choice.length = aceCount cs := by
        simp only [aceCount, List.countP_cons, hc'] at h ⊢
        simpa using h
      rw [ih choice hlen]
      simp [aceCount, baseSum, List.countP_cons, hc']
      ring

/-- Characterization of the ace-reduction loop: it subtracts 10 exactly
`j` times for some minimal `j ≤ a`, where every earlier value exceeded
21, and it only stops above 21 with all aces spent. -/
theorem reduceAces_spec (a : Nat) : ∀ t : Int,
    ∃ j : Nat, j ≤ a ∧ reduceAces t a = t - 10 * j ∧
      (∀ i : Nat, i < j → 21 < t - 10 * i) ∧
      (21 < reduceAces t a → j = a) := by
  induction a with
  | zero =>
    intro t
    exact ⟨0, le_refl 0, by simp [reduceAces],
      fun i hi => absurd hi (Nat.not_lt_zero i), fun _ => rfl⟩
  | succ a ih =>
    intro t
    by_cases h : 21 < t
    · obtain ⟨j, hj, hval, hmin, hmax⟩ := ih (t - 10)
      refine ⟨j + 1, by omega, ?_, ?_, ?_⟩
      · rw [show reduceAces t (a + 1) = reduceAces (t - 10) a from by
          simp [reduceAces, h], hval]
        push_cast
        ring
      · intro i hi
        cases i with
        | zero => simpa using h
        | succ i' =>
          have hx := hmin i' (by omega)
          have : t - 10 - 10 * (i' : Int) = t - 10 * ((i' : Int) + 1) := by ring
          rw [this] at hx
          push_cast
          omega
      · intro hgt
        rw [show reduceAces t (a + 1) = reduceAces (t - 10) a from by
          simp [reduceAces, h]] at hgt
        have := hmax hgt
        omega
    · refine ⟨0, Nat.zero_le _, ?_, fun i hi => absurd hi (Nat.not_lt_zero i), ?_⟩
      · rw [show reduceAces t (a + 1) = t from by simp [reduceAces, h]]
        simp
      · intro hgt
        rw [show reduceAces t (a + 1) = t from by simp [reduceAces, h]] at hgt
        omega

end Play21

namespace Play21

/-- C10 (amended): when every card whose name contains `ACE` carries
`CARD-VALUE` 11, `calculate_total` returns at most 21 exactly when some
assignment of 1 or 11 to each ace keeps the hand at most 21, and in
that case the returned value is the largest total achievable by such an
assignment without exceeding 21. -/
theorem C10_calculate_total (cards : List Card)
    (hace : ∀ c ∈ cards, isAceName c.cardName = true → c.cardValue = 11) :
    (calculate_total cards ≤ 21 ↔
      ∃ choice : List Bool, choice.length = aceCount cards ∧
        handTotal cards choice ≤ 21) ∧
    (calculate_total cards ≤ 21 →
      (∃ choice : List Bool, choice.length = aceCount cards ∧
        handTotal cards choice = calculate_total cards) ∧
      (∀ choice : List Bool, choice.length = aceCount cards →
        handTotal cards choice ≤ 21 →
        handTotal cards choice ≤ calculate_total cards)) := by
  obtain ⟨j, hj, hval, hmin, hmax⟩ := reduceAces_spec (aceCount cards) (handSum cards)
  have hsum : handSum cards = baseSum cards + 11 * (aceCount cards : Int) :=
    handSum_eq cards hace
  have hct : calculate_total cards = handSum cards - 10 * (j : Int) := hval
  have hmax' : 21 < calculate_total cards → j = aceCount cards := hmax
  have hrep : (List.replicate (aceCount cards - j) true ++
      List.replicate j false).length = aceCount cards := by
    simp [List.length_replicate]
    omega
  have hrepcount : (List.replicate (aceCount cards - j) true ++
      List.replicate j false).count true = aceCount cards - j := by
    simp [List.count_append, List.count_replicate]
  have hrept : handTotal cards
      (List.replicate (aceCount cards - j) true ++ List.replicate j false) =
      calculate_total cards := by
    rw [handTotal_eq cards _ hrep, hrepcount, hct, hsum]
    rw [Nat.cast_sub hj]
    ring
  constructor
  · constructor
    · intro hle
      exact ⟨_, hrep, by rw [hrept]; exact hle⟩
    · rintro ⟨choice, hl, hle⟩
      by_contra h21
      push_neg at h21
      have hja := hmax' h21
      have hht := handTotal_eq cards choice hl
      have hcount : choice.count true ≤ choice.length := List.count_le_length _ _
      omega
  · intro hle
    constructor
    · exact ⟨_, hrep, hrept⟩
    · intro choice hl hcle
      have hht := handTotal_eq cards choice hl
      have hcount : choice.count true ≤ choice.length := List.count_le_length _ _
      by_contra hgt
      push_neg at hgt
      have hlt : aceCount cards - choice.count true < j := by omega
      have h21' := hmin (aceCount cards - choice.count true) hlt
      omega

/-- Witness for the amended C10 at a concrete hand (ace + king, ace
worth 11): the total 21 is at most 21 and is achieved by an
assignment. -/
theorem C10_calculate_total_witness :
    calculate_total [⟨"ACE OF HEARTS", 11⟩, ⟨"KING OF HEARTS", 10⟩] ≤ 21 ∧
    ∃ choice : List Bool,
      choice.length = aceCount [⟨"ACE OF HEARTS", 11⟩, ⟨"KING OF HEARTS", 10⟩] ∧
      handTotal [⟨"ACE OF HEARTS", 11⟩, ⟨"KING OF HEARTS", 10⟩] choice =
        calculate_total [⟨"ACE OF HEARTS", 11⟩, ⟨"KING OF HEARTS", 10⟩] := by
  have h := C10_calculate_total [⟨"ACE OF HEARTS", 11⟩, ⟨"KING OF HEARTS", 10⟩]
    (by decide)
  have hle : calculate_total [⟨"ACE OF HEARTS", 11⟩, ⟨"KING OF HEARTS", 10⟩] ≤ 21 := by
    decide
  exact ⟨hle, (h.2 hle).1⟩

/-- Counterexample to C10 as stated: for the card `ACE OF SPADES` with
`CARD-VALUE` 5, `calculate_total` returns 5 (it sums the stored value),
yet the claim's assignment model can reach 11 ≤ 21 by assigning 11 to
the ace, so the returned value is not the largest achievable total. -/
theorem C10_calculate_total_counterexample :
    ([true] : List Bool).length = aceCount oddAce ∧
    handTotal oddAce [true] ≤ 21 ∧
    calculate_total oddAce ≤ 21 ∧
    ¬ handTotal oddAce [true] ≤ calculate_total oddAce := by
  exact ⟨by decide, by decide, by decide, by decide⟩

end Play21

namespace TestHarness

/-- Witness for the amended C9 at concrete lists: the empty
actual/expected pair is accepted, and the fixture pair is rejected, in
agreement with the predicate. -/
theorem C9_compare_outputs_iff_witness :
    compare_outputs [] [] = true ∧ claimAccepts amendFieldClaim [] [] := by
  have h := C9_compare_outputs_iff [] []
  have hc : compare_outputs [] [] = true := by decide
  exact ⟨hc, h.mp hc⟩

end TestHarness
